import Mathlib

/-!
Verification development for the key-rotation-manager repository.

The embedding translates the TypeScript sources into Lean:

* `src/utils/crypto.util.ts` (class `CryptoService`, built on CryptoJS):
  `encrypt`, `decrypt`, `hash`, `verifyHash`, `getAESMode`.
  Byte sequences (CryptoJS `WordArray`s and the hex strings derived from
  them) are modelled as `List Nat`; since every offset the source takes in
  the combined hex string is even, slicing the hex string corresponds
  exactly to slicing the byte list.  The outer text transport
  (`encode`/`decode`, base64 / base64url / hex) is a bijection between
  encoded strings and byte sequences and is elided: `decrypt` receives the
  decoded byte sequence directly.
* the AES block primitive and the KDF (`CryptoJS.AES`, `CryptoJS.PBKDF2`)
  are external library primitives; they are parameters of the embedding
  (`CipherExt`), constrained only where a claim needs it (block cipher
  inverse law).  CBC chaining, PKCS7 padding and the envelope framing are
  translated concretely because the repository's correctness claims live
  there.
* `src/core/store.core.ts` (class `Store`): `toSavedData`, `saveKeyFile`.
* `src/unnamed/part_008` (class `KeyManager`, the latest generation):
  `validateKey`, `getKey`, `newKey`, `getKeyByStore`.
  JavaScript runtime values stored in a key record are modelled by `JSVal`;
  `Date` parsing and `toISOString` are external (`DateExt`), with epoch
  milliseconds as `Int`.
-/

namespace KeyRot

/-- Byte sequences; each entry is meant to be < 256 but the operations do
not depend on it unless stated. -/
abbrev Bytes := List Nat

/-- JavaScript `String.prototype.substring` on the byte view of the combined
hex string.  `none` stands for `NaN` arguments (NaN is coerced to 0); the
start and end are clamped to the length and swapped when out of order,
exactly as `substring` does. -/
def jsSubstr (s : Bytes) (a b : Option Nat) : Bytes :=
  let x := min (a.getD 0) s.length
  let y := min (b.getD 0) s.length
  (s.take (max x y)).drop (min x y)

/-- One-argument `substring(offset)`; a `NaN` offset is coerced to 0, so the
whole string is returned. -/
def jsSubstrFrom (s : Bytes) (a : Option Nat) : Bytes :=
  s.drop (min (a.getD 0) s.length)

/-- Model of `parseInt(hex, 16)` on the hex rendering of a byte slice: an empty slice
parses to `NaN` (`none`), otherwise the big-endian value of the bytes. -/
def parseLen (bs : Bytes) : Option Nat :=
  if bs = [] then none else some (bs.foldl (fun a b => a * 256 + b) 0)

/-- A `NaN`-propagating addition used for the running `offset`. -/
def optAdd (a b : Option Nat) : Option Nat :=
  match a, b with
  | some x, some y => some (x + y)
  | _, _ => none

/-- Model of `n.toString(16).padStart(4, '0')`: the 2-byte big-endian length field
written into the envelope (faithful for `n < 65536`, which the source
guarantees for its configured lengths). -/
def len2 (n : Nat) : Bytes := [n / 256 % 256, n % 256]

/-- Pointwise XOR of two byte sequences (CryptoJS xors word-aligned blocks;
both arguments are 16 bytes where this is used). -/
def xorB (a b : Bytes) : Bytes := List.zipWith Nat.xor a b

/-- CryptoJS reads the IV as one 16-byte block: missing words read as 0. -/
def padBlock16 (iv : Bytes) : Bytes :=
  iv.take 16 ++ List.replicate (16 - (iv.take 16).length) 0

/-- Fuel-driven worker for `chunks16`; the fuel is only a structural
recursion bound (any fuel at least the list length gives the same
result). -/
def chunksGo : Nat → Bytes → List Bytes
  | _, [] => []
  | 0, _ :: _ => []
  | f + 1, a :: l => (a :: l).take 16 :: chunksGo f ((a :: l).drop 16)

/-- Split a byte sequence into 16-byte blocks (last block possibly short). -/
def chunks16 (l : Bytes) : List Bytes := chunksGo l.length l

lemma chunksGo_fuel (f1 : Nat) : ∀ (f2 : Nat) (l : Bytes),
    l.length ≤ f1 → l.length ≤ f2 → chunksGo f1 l = chunksGo f2 l := by
  induction f1 with
  | zero =>
    intro f2 l h1 _
    have : l = [] := List.eq_nil_of_length_eq_zero (Nat.le_zero.mp h1)
    subst this
    cases f2 <;> rfl
  | succ f ih =>
    intro f2 l h1 h2
    cases l with
    | nil => cases f2 <;> rfl
    | cons a t =>
      cases f2 with
      | zero => simp at h2
      | succ f2' =>
        simp only [chunksGo]
        refine congrArg _ (ih f2' ((a :: t).drop 16) ?_ ?_) <;>
          simp only [List.length_drop, List.length_cons] at * <;> omega

/-- The defining unfolding of `chunks16`. -/
lemma chunks16_eq (l : Bytes) :
    chunks16 l = if l = [] then [] else l.take 16 :: chunks16 (l.drop 16) := by
  cases l with
  | nil => rfl
  | cons a t =>
    simp only [chunks16, List.length_cons, chunksGo, List.cons_ne_nil,
      if_false]
    refine congrArg _ (chunksGo_fuel _ _ _ ?_ ?_) <;>
      simp only [List.length_drop, List.length_cons] <;> omega

/-- PKCS7 padding to 16-byte blocks (CryptoJS `pad.Pkcs7.pad`). -/
def pkcs7pad (p : Bytes) : Bytes :=
  p ++ List.replicate (16 - p.length % 16) (16 - p.length % 16)

/-- CryptoJS `pad.Pkcs7.unpad`: read the final byte and drop that many
bytes; no validity check is performed.  (On an empty input the source
computes with NaN and stringifies to the empty result, which the truncated
subtraction also produces.) -/
def pkcs7unpad (p : Bytes) : Bytes :=
  p.take (p.length - p.getLastD 0)

/-- Strict UTF-8 validity (RFC 3629), the condition under which
`decodeURIComponent(escape(...))` — CryptoJS's `Utf8.stringify` — returns
normally instead of throwing `Malformed UTF-8 data`. -/
def validUtf8 : Bytes → Bool
  | [] => true
  | b :: rest =>
    if b < 0x80 then validUtf8 rest
    else if b < 0xC2 then false
    else if b < 0xE0 then
      match rest with
      | c :: r2 => decide (0x80 ≤ c ∧ c < 0xC0) && validUtf8 r2
      | _ => false
    else if b < 0xF0 then
      match rest with
      | c :: d :: r2 =>
        decide ((if b = 0xE0 then 0xA0 ≤ c ∧ c < 0xC0
                 else if b = 0xED then 0x80 ≤ c ∧ c < 0xA0
                 else 0x80 ≤ c ∧ c < 0xC0) ∧ 0x80 ≤ d ∧ d < 0xC0) && validUtf8 r2
      | _ => false
    else if b < 0xF5 then
      match rest with
      | c :: d :: e :: r2 =>
        decide ((if b = 0xF0 then 0x90 ≤ c ∧ c < 0xC0
                 else if b = 0xF4 then 0x80 ≤ c ∧ c < 0x90
                 else 0x80 ≤ c ∧ c < 0xC0) ∧
                0x80 ≤ d ∧ d < 0xC0 ∧ 0x80 ≤ e ∧ e < 0xC0) && validUtf8 r2
      | _ => false
    else false

/-- CBC encryption of a list of plaintext blocks under block primitive `E`:
each block is xored with the previous ciphertext block (initially the IV)
and enciphered. -/
def cbcEncBlocks (E : Bytes → Bytes → Bytes) (key : Bytes) :
    Bytes → List Bytes → List Bytes
  | _, [] => []
  | prev, b :: bs =>
    let c := E key (xorB b prev)
    c :: cbcEncBlocks E key c bs

/-- CBC decryption of a list of ciphertext blocks under block primitive
`D`. -/
def cbcDecBlocks (D : Bytes → Bytes → Bytes) (key : Bytes) :
    Bytes → List Bytes → List Bytes
  | _, [] => []
  | prev, c :: cs => xorB (D key c) prev :: cbcDecBlocks D key c cs

/-- The configured AES block-cipher algorithm (`TAlgorithmType`). -/
inductive Algo
  | aes128gcm | aes192gcm | aes256gcm
  | aes128cbc | aes192cbc | aes256cbc
deriving DecidableEq

/-- The configured key-derivation function (`TKeyDerivationFunction`). -/
inductive Kdf
  | scrypt | pbkdf2 | noKdf
deriving DecidableEq

/-- CryptoJS block modes that `getAESMode` can return. -/
inductive AESMode
  | CBC
deriving DecidableEq

/-- The `TCryptoOptions` record (hash algorithm and text encoding do not influence the
byte-level envelope and are omitted). -/
structure CryptoOpts where
  algorithm : Algo
  kdf : Kdf
  keyLength : Nat
  ivLength : Nat
  saltLength : Nat
  tagLength : Nat
  iterations : Nat
deriving DecidableEq

/-- The `DEFAULT_CRYPTO_OPTIONS` of the generation that matches the CryptoJS
`CryptoService`: aes-256-cbc, pbkdf2, 32/16/32/16 byte lengths, 100000
iterations. -/
def defaultCryptoOpts : CryptoOpts :=
  { algorithm := .aes256cbc, kdf := .pbkdf2, keyLength := 32, ivLength := 16
    saltLength := 32, tagLength := 16, iterations := 100000 }

/-- External cryptographic primitives used by `CryptoService`: the AES
block cipher pair (`CryptoJS.AES` at block level) and the key-derivation
function (`CryptoJS.PBKDF2` / `Hex.parse` of the password when the KDF is
`none`).  `deriveKey`'s key-length argument is `none` when the source
passes a `NaN` parsed length. -/
structure CipherExt where
  encB : Bytes → Bytes → Bytes
  decB : Bytes → Bytes → Bytes
  deriveKey : String → Bytes → Option Nat → Bytes

/-- Model of `CryptoService.getAESMode`: always returns `CryptoJS.mode.CBC`,
whatever the configured algorithm is. -/
def getAESMode (_ : CryptoOpts) : AESMode := .CBC

/-- Model of `CryptoService.encrypt`.  `ovKey`/`ovSalt`/`ovIv` are the per-call
length overrides; `saltR` and `ivR` are the random byte sequences drawn by
`generateRandomWordArray` for the salt and the IV (of the resolved lengths).
The result is the byte sequence of the envelope, i.e. the decoded form of
the encoded string the source returns. -/
def encrypt (ext : CipherExt) (opts : CryptoOpts) (plain : Bytes)
    (secret : String) (ovKey ovSalt ovIv : Option Nat) (saltR ivR : Bytes) :
    Bytes :=
  let keyLength := ovKey.getD opts.keyLength
  let salt := if opts.kdf = .noKdf then [] else saltR
  let iv := ivR
  let key := ext.deriveKey secret salt (some keyLength)
  let ct := (cbcEncBlocks ext.encB key (padBlock16 iv)
    (chunks16 (pkcs7pad plain))).flatten
  len2 keyLength ++ len2 salt.length ++ len2 (ovIv.getD opts.ivLength) ++
    salt ++ iv ++ ct

/-- The envelope parsing stage of `CryptoService.decrypt`: read the three
2-byte length fields and slice salt, IV and ciphertext with `substring`,
mirroring the source's offset arithmetic including its `NaN` behaviour.
Returns `(keyLength?, salt, iv, ciphertext)`. -/
def decryptParse (bytesIn : Bytes) : Option Nat × Bytes × Bytes × Bytes :=
  let keyLength := parseLen (jsSubstr bytesIn (some 0) (some 2))
  let saltLength := parseLen (jsSubstr bytesIn (some 2) (some 4))
  let ivLength := parseLen (jsSubstr bytesIn (some 4) (some 6))
  let offset0 : Option Nat := some 6
  let saltB := match saltLength with
    | some sl => if 0 < sl then jsSubstr bytesIn offset0 (optAdd offset0 (some sl)) else []
    | none => []
  let offset1 := optAdd offset0 saltLength
  let ivB := jsSubstr bytesIn offset1 (optAdd offset1 ivLength)
  let offset2 := optAdd offset1 ivLength
  let ctB := jsSubstrFrom bytesIn offset2
  (keyLength, saltB, ivB, ctB)

/-- Result of `CryptoService.decrypt`: either the decoded plaintext bytes,
or the `Malformed UTF-8 data` error thrown by CryptoJS's `Utf8.stringify`
when the deciphered bytes are not valid UTF-8. -/
inductive DecResult
  | ok (plain : Bytes)
  | utf8Error
deriving DecidableEq

/-- Model of `CryptoService.decrypt` on the decoded envelope bytes: parse the
framing, re-derive the key, CBC-decipher, strip PKCS7 padding, and decode
the result as UTF-8. -/
def decrypt (ext : CipherExt) (bytesIn : Bytes) (secret : String) :
    DecResult :=
  let (keyLength, saltB, ivB, ctB) := decryptParse bytesIn
  let key := ext.deriveKey secret saltB keyLength
  let ptPadded := (cbcDecBlocks ext.decB key (padBlock16 ivB)
    (chunks16 ctB)).flatten
  let unpadded := pkcs7unpad ptPadded
  if validUtf8 unpadded then .ok unpadded else .utf8Error

lemma padBlock16_length (iv : Bytes) : (padBlock16 iv).length = 16 := by
  simp [padBlock16] <;> omega

lemma xorB_length (a b : Bytes) : (xorB a b).length = min a.length b.length := by
  simp [xorB]

lemma xorB_cancel (a b : Bytes) (h : a.length = b.length) :
    xorB (xorB a b) b = a := by
  induction a generalizing b with
  | nil => cases b <;> rfl
  | cons x xs ih =>
    cases b with
    | nil => simp at h
    | cons y ys =>
      have h2 : xs.length = ys.length := by simpa using h
      simp only [xorB, List.zipWith_cons_cons]
      have hx : (x.xor y).xor y = x := Nat.xor_cancel_right y x
      rw [hx]
      exact congrArg (List.cons x) (ih ys h2)

lemma cbcEncBlocks_all16 (E : Bytes → Bytes → Bytes) (key : Bytes)
    (hE : ∀ b, b.length = 16 → (E key b).length = 16) :
    ∀ (bs : List Bytes) (prev : Bytes), prev.length = 16 →
      (∀ b ∈ bs, b.length = 16) →
      ∀ c ∈ cbcEncBlocks E key prev bs, c.length = 16 := by
  intro bs
  induction bs with
  | nil => intro prev _ _ c hc; simp [cbcEncBlocks] at hc
  | cons b bs ih =>
    intro prev hprev hall c hc
    have hb : b.length = 16 := hall b (by simp)
    have hx : (xorB b prev).length = 16 := by
      simp [xorB_length, hb, hprev]
    have hc1 : (E key (xorB b prev)).length = 16 := hE _ hx
    simp only [cbcEncBlocks, List.mem_cons] at hc
    rcases hc with rfl | hc
    · exact hc1
    · exact ih _ hc1 (fun x hx => hall x (by simp [hx])) c hc

lemma cbcDecBlocks_cbcEncBlocks (E D : Bytes → Bytes → Bytes) (key : Bytes)
    (h : ∀ b, b.length = 16 → (E key b).length = 16 ∧ D key (E key b) = b) :
    ∀ (bs : List Bytes) (prev : Bytes), prev.length = 16 →
      (∀ b ∈ bs, b.length = 16) →
      cbcDecBlocks D key prev (cbcEncBlocks E key prev bs) = bs := by
  intro bs
  induction bs with
  | nil => intro prev _ _; rfl
  | cons b bs ih =>
    intro prev hprev hall
    have hb : b.length = 16 := hall b (by simp)
    have hx : (xorB b prev).length = 16 := by simp [xorB_length, hb, hprev]
    obtain ⟨hlen, hinv⟩ := h _ hx
    simp only [cbcEncBlocks, cbcDecBlocks]
    refine congrArg₂ _ ?_ (ih _ hlen (fun x hx2 => hall x (by simp [hx2])))
    rw [hinv, xorB_cancel _ _ (by rw [hb, hprev])]

lemma flatten_chunks16 (l : Bytes) : (chunks16 l).flatten = l := by
  by_cases h : l = []
  · rw [chunks16_eq, if_pos h, h]
    rfl
  · rw [chunks16_eq, if_neg h]
    simp only [List.flatten_cons]
    rw [flatten_chunks16 (l.drop 16)]
    exact List.take_append_drop 16 l
termination_by l.length
decreasing_by
  simp only [List.length_drop]
  have : 0 < l.length := List.length_pos.mpr h
  omega

lemma chunks16_flatten (blocks : List Bytes)
    (h : ∀ b ∈ blocks, b.length = 16) :
    chunks16 blocks.flatten = blocks := by
  induction blocks with
  | nil => rw [chunks16_eq]; simp
  | cons b bs ih =>
    have hb : b.length = 16 := h b (by simp)
    have hbne : (b :: bs).flatten ≠ [] := by
      simp only [List.flatten_cons]
      intro hcon
      have := congrArg List.length hcon
      simp [hb] at this
    rw [chunks16_eq, if_neg hbne]
    have h16 : (16 : Nat) = b.length := hb.symm
    simp only [List.flatten_cons]
    rw [h16, List.take_left, List.drop_left]
    exact congrArg _ (ih (fun x hx => h x (by simp [hx])))

lemma pkcs7pad_mod (p : Bytes) : (pkcs7pad p).length % 16 = 0 := by
  simp only [pkcs7pad, List.length_append, List.length_replicate]
  omega

lemma pkcs7unpad_append_replicate (p : Bytes) (j : Nat) :
    pkcs7unpad (p ++ List.replicate (j + 1) (j + 1)) = p := by
  have hL : p ++ List.replicate (j + 1) (j + 1)
      = (p ++ List.replicate j (j + 1)) ++ [j + 1] := by
    rw [List.replicate_succ', List.append_assoc]
  unfold pkcs7unpad
  rw [hL, List.getLastD_concat]
  have hlen : ((p ++ List.replicate j (j + 1)) ++ [j + 1]).length
      = p.length + j + 1 := by simp <;> omega
  rw [hlen, show p.length + j + 1 - (j + 1) = p.length from by omega,
    List.append_assoc]
  exact List.take_left' rfl

lemma pkcs7unpad_pkcs7pad (p : Bytes) : pkcs7unpad (pkcs7pad p) = p := by
  have hk : 16 - p.length % 16 = (15 - p.length % 16) + 1 := by omega
  unfold pkcs7pad
  rw [hk]
  exact pkcs7unpad_append_replicate p _

lemma parseLen_len2 (n : Nat) (h : n < 65536) : parseLen (len2 n) = some n := by
  simp only [parseLen, len2, List.foldl]
  rw [if_neg (by simp)]
  congr 1
  have h2 : n / 256 % 256 = n / 256 := Nat.mod_eq_of_lt (by omega)
  rw [h2]
  omega

lemma jsSubstr_append (A B R : Bytes) :
    jsSubstr (A ++ B ++ R) (some A.length) (some (A.length + B.length)) = B := by
  unfold jsSubstr
  have h1 : A.length ≤ (A ++ B ++ R).length := by simp
  have h2 : A.length + B.length ≤ (A ++ B ++ R).length := by simp
  simp only [Option.getD_some, min_eq_left h1, min_eq_left h2]
  rw [max_eq_right (Nat.le_add_right _ _), min_eq_left (Nat.le_add_right _ _)]
  rw [List.append_assoc, List.take_append, List.drop_left, List.take_left]

lemma jsSubstrFrom_append (A R : Bytes) :
    jsSubstrFrom (A ++ R) (some A.length) = R := by
  unfold jsSubstrFrom
  have h1 : A.length ≤ (A ++ R).length := by simp
  simp only [Option.getD_some, min_eq_left h1]
  exact List.drop_left A R

lemma chunks16_len16 (l : Bytes) (h : l.length % 16 = 0) :
    ∀ b ∈ chunks16 l, b.length = 16 := by
  by_cases hnil : l = []
  · rw [chunks16_eq, if_pos hnil]
    simp
  · rw [chunks16_eq, if_neg hnil]
    intro b hb
    have hpos : 0 < l.length := List.length_pos.mpr hnil
    have hlen : 16 ≤ l.length := by omega
    rcases List.mem_cons.mp hb with rfl | hb2
    · simp only [List.length_take]
      omega
    · exact chunks16_len16 (l.drop 16)
        (by simp only [List.length_drop]; omega) b hb2
termination_by l.length
decreasing_by
  simp only [List.length_drop]
  have : 0 < l.length := List.length_pos.mpr hnil
  omega

lemma decryptParse_wellformed (k : Nat) (salt iv ct : Bytes)
    (hk : k < 65536) (hs : salt.length < 65536) (hi : iv.length < 65536) :
    decryptParse (len2 k ++ len2 salt.length ++ len2 iv.length ++ salt ++ iv ++ ct)
      = (some k, salt, iv, ct) := by
  have e1 : jsSubstr (len2 k ++ len2 salt.length ++ len2 iv.length ++ salt ++ iv ++ ct)
      (some 0) (some 2) = len2 k := by
    have h := jsSubstr_append [] (len2 k)
      (len2 salt.length ++ len2 iv.length ++ salt ++ iv ++ ct)
    simpa [len2, List.append_assoc] using h
  have e2 : jsSubstr (len2 k ++ len2 salt.length ++ len2 iv.length ++ salt ++ iv ++ ct)
      (some 2) (some 4) = len2 salt.length := by
    have h := jsSubstr_append (len2 k) (len2 salt.length)
      (len2 iv.length ++ salt ++ iv ++ ct)
    simpa [len2, List.append_assoc] using h
  have e3 : jsSubstr (len2 k ++ len2 salt.length ++ len2 iv.length ++ salt ++ iv ++ ct)
      (some 4) (some 6) = len2 iv.length := by
    have h := jsSubstr_append (len2 k ++ len2 salt.length) (len2 iv.length)
      (salt ++ iv ++ ct)
    simpa [len2, List.append_assoc] using h
  have e4 : jsSubstr (len2 k ++ len2 salt.length ++ len2 iv.length ++ salt ++ iv ++ ct)
      (some 6) (some (6 + salt.length)) = salt := by
    have h := jsSubstr_append (len2 k ++ len2 salt.length ++ len2 iv.length) salt
      (iv ++ ct)
    simpa [len2, List.append_assoc] using h
  have e5 : jsSubstr (len2 k ++ len2 salt.length ++ len2 iv.length ++ salt ++ iv ++ ct)
      (some (6 + salt.length)) (some (6 + salt.length + iv.length)) = iv := by
    have h := jsSubstr_append (len2 k ++ len2 salt.length ++ len2 iv.length ++ salt)
      iv ct
    have hA : (len2 k ++ len2 salt.length ++ len2 iv.length ++ salt).length
        = 6 + salt.length := by simp [len2]; omega
    rw [hA] at h
    simpa [len2, List.append_assoc] using h
  have e6 : jsSubstrFrom (len2 k ++ len2 salt.length ++ len2 iv.length ++ salt ++ iv ++ ct)
      (some (6 + salt.length + iv.length)) = ct := by
    have h := jsSubstrFrom_append
      (len2 k ++ len2 salt.length ++ len2 iv.length ++ salt ++ iv) ct
    have hA : (len2 k ++ len2 salt.length ++ len2 iv.length ++ salt ++ iv).length
        = 6 + salt.length + iv.length := by simp [len2]; omega
    rw [hA] at h
    simpa [len2, List.append_assoc] using h
  unfold decryptParse
  rw [e1, e2, e3, parseLen_len2 k hk, parseLen_len2 salt.length hs,
    parseLen_len2 iv.length hi]
  simp only [optAdd]
  by_cases hsz : 0 < salt.length
  · rw [if_pos hsz]
    rw [e4, e5, e6]
  · rw [if_neg hsz]
    have hempty : salt = [] := by
      cases salt with
      | nil => rfl
      | cons a l => simp at hsz
    subst hempty
    simp only [List.length_nil, Nat.add_zero] at e5 e6 ⊢
    rw [e5, e6]

/-- C2 helper: the envelope produced by `encrypt` with no per-call length
overrides, written as an explicit concatenation. -/
lemma encrypt_eq (ext : CipherExt) (opts : CryptoOpts) (plain : Bytes)
    (secret : String) (saltR ivR : Bytes) :
    encrypt ext opts plain secret none none none saltR ivR
      = len2 opts.keyLength
        ++ len2 (if opts.kdf = .noKdf then [] else saltR).length
        ++ len2 opts.ivLength
        ++ (if opts.kdf = .noKdf then [] else saltR) ++ ivR
        ++ (cbcEncBlocks ext.encB
              (ext.deriveKey secret (if opts.kdf = .noKdf then [] else saltR)
                (some opts.keyLength))
              (padBlock16 ivR) (chunks16 (pkcs7pad plain))).flatten := rfl

/-- C2: for every plaintext (a valid UTF-8 byte sequence, i.e. one coming
from a JavaScript string), every secret, and every choice of the salt and
IV randomness drawn during encryption, decrypting the envelope produced by
`encrypt` with the same secret returns the plaintext.  The AES block
primitive is a parameter, assumed only to be a 16-byte block permutation
(`decB` inverts `encB`), and the KDF is an arbitrary deterministic
function, as in the source where both sides derive the key from the same
secret and parsed salt. -/
theorem C2_encrypt_decrypt_roundtrip (ext : CipherExt) (opts : CryptoOpts)
    (plain : Bytes) (secret : String) (saltR ivR : Bytes)
    (hE : ∀ key b, b.length = 16 →
      (ext.encB key b).length = 16 ∧ ext.decB key (ext.encB key b) = b)
    (hkLen : opts.keyLength < 65536) (hsLen : saltR.length < 65536)
    (hivLen : ivR.length = opts.ivLength) (hiv2 : opts.ivLength < 65536)
    (hP : validUtf8 plain = true) :
    decrypt ext (encrypt ext opts plain secret none none none saltR ivR) secret
      = .ok plain := by
  rw [encrypt_eq]
  have hslen : (if opts.kdf = .noKdf then ([] : Bytes) else saltR).length < 65536 := by
    split
    · simp
    · exact hsLen
  rw [show len2 opts.ivLength = len2 ivR.length from by rw [hivLen]]
  unfold decrypt
  rw [decryptParse_wellformed opts.keyLength _ ivR _ hkLen hslen
    (by rw [hivLen]; exact hiv2)]
  dsimp only
  have hblocks16 : ∀ b ∈ chunks16 (pkcs7pad plain), b.length = 16 :=
    chunks16_len16 _ (pkcs7pad_mod plain)
  have hencall : ∀ c ∈ cbcEncBlocks ext.encB
      (ext.deriveKey secret (if opts.kdf = .noKdf then [] else saltR)
        (some opts.keyLength)) (padBlock16 ivR) (chunks16 (pkcs7pad plain)),
      c.length = 16 :=
    cbcEncBlocks_all16 _ _ (fun b hb => (hE _ b hb).1) _ _
      (padBlock16_length ivR) hblocks16
  rw [chunks16_flatten _ hencall]
  rw [cbcDecBlocks_cbcEncBlocks ext.encB ext.decB _
    (fun b hb => hE _ b hb) _ _ (padBlock16_length ivR) hblocks16]
  rw [flatten_chunks16, pkcs7unpad_pkcs7pad, if_pos hP]

/-- Witness for C2 at a concrete instance: the identity block cipher (a
valid 16-byte block permutation), default options, plaintext "hi",
concrete salt and IV randomness. -/
theorem C2_encrypt_decrypt_roundtrip_witness :
    decrypt ⟨fun _ b => b, fun _ b => b, fun _ _ _ => []⟩
      (encrypt ⟨fun _ b => b, fun _ b => b, fun _ _ _ => []⟩
        defaultCryptoOpts [104, 105] "pw" none none none
        (List.replicate 32 1) (List.replicate 16 2)) "pw"
      = .ok [104, 105] :=
  C2_encrypt_decrypt_roundtrip ⟨fun _ b => b, fun _ b => b, fun _ _ _ => []⟩
    defaultCryptoOpts [104, 105] "pw" (List.replicate 32 1)
    (List.replicate 16 2)
    (fun _ b hb => ⟨hb, rfl⟩) (by decide) (by decide) (by decide) (by decide)
    (by decide)

/-- C5: the parsing stage of `decrypt` only ever produces contiguous
sub-sequences of the decoded input buffer: `substring` clamps its indices
to the string length (and coerces `NaN` to 0), so no slice — salt, IV or
ciphertext — reaches past the end of the buffer, for every input envelope,
truncated and length-tampered ones included. -/
theorem C5_parse_never_out_of_bounds (bs : Bytes) :
    (decryptParse bs).2.1 <:+: bs ∧ (decryptParse bs).2.2.1 <:+: bs ∧
      (decryptParse bs).2.2.2 <:+: bs := by
  have hsub : ∀ (a b : Option Nat), jsSubstr bs a b <:+: bs := by
    intro a b
    unfold jsSubstr
    exact ((bs.take _).drop_suffix _).isInfix.trans
      (bs.take_prefix _).isInfix
  have hfrom : ∀ (a : Option Nat), jsSubstrFrom bs a <:+: bs := by
    intro a
    exact (bs.drop_suffix _).isInfix
  unfold decryptParse
  refine ⟨?_, hsub _ _, hfrom _⟩
  dsimp only
  split
  · split
    · exact hsub _ _
    · exact ⟨[], bs, by simp⟩
  · exact ⟨[], bs, by simp⟩

/-- C5 counterexample: a well-framed envelope (key length 32, salt length
0, IV length 16, one 16-byte ciphertext block) whose deciphered block
unpads to fifteen 0xFF bytes — not valid UTF-8.  On it the source's
`decrypted.toString(CryptoJS.enc.Utf8)` throws `Malformed UTF-8 data`
instead of returning an empty/failure sentinel, so decryption of a
tampered envelope is not fail-closed.  The block cipher is instantiated
with the identity permutation; the IV is all zeros so the deciphered
plaintext equals the ciphertext block. -/
theorem C5_decrypt_throws_on_tampered_envelope :
    decrypt ⟨fun _ b => b, fun _ b => b, fun _ _ _ => []⟩
      ([0, 32, 0, 0, 0, 16] ++ List.replicate 16 0 ++
        (List.replicate 15 255 ++ [1])) "secret"
      = .utf8Error := by decide

/-- C7: the configured algorithm and tag length are ignored by the cipher
layer: `getAESMode` returns CBC even for the documented default
`aes-256-gcm`, and `encrypt` produces the identical envelope whatever
`algorithm` and `tagLength` are configured — no authentication tag is ever
serialized (the envelope is exactly lengths ++ salt ++ IV ++ ciphertext,
see `encrypt_eq`), and `decrypt` takes no options at all, so no tag is
ever verified. -/
theorem C7_gcm_config_ignored_no_tag :
    (∀ opts : CryptoOpts, getAESMode opts = AESMode.CBC) ∧
    getAESMode { defaultCryptoOpts with algorithm := .aes256gcm } = AESMode.CBC ∧
    (∀ (ext : CipherExt) (opts : CryptoOpts) (a : Algo) (t : Nat)
      (plain : Bytes) (secret : String) (ovK ovS ovI : Option Nat)
      (saltR ivR : Bytes),
      encrypt ext { opts with algorithm := a, tagLength := t } plain secret
          ovK ovS ovI saltR ivR
        = encrypt ext opts plain secret ovK ovS ovI saltR ivR) :=
  ⟨fun _ => rfl, rfl, fun _ _ _ _ _ _ _ _ _ _ _ => rfl⟩

/-! Hashing: `CryptoService.hash` and `CryptoService.verifyHash`.

Strings are modelled as `List Char` at this layer because `verifyHash`
manipulates the record string (`split(':')`) character-wise.  `data` and
`secret` enter the digest as their UTF-8 byte sequences (`Bytes`).  The
text codec (`encode`/`decode`) and the configured hash algorithm are
external primitives (`HashExt`). -/

/-- External primitives of the hashing path: the text codec of the
configured encoding and the configured hash algorithm (the digest of the
concatenated update stream `data ++ secret ++ salt`). -/
structure HashExt where
  encodeStr : Bytes → List Char
  decodeStr : List Char → Bytes
  H : Bytes → Bytes

/-- JavaScript `String.prototype.split(':')` on character lists. -/
def splitColon : List Char → List (List Char)
  | [] => [[]]
  | c :: rest =>
    if c = ':' then [] :: splitColon rest
    else
      match splitColon rest with
      | [] => [[c]]
      | p :: ps => (c :: p) :: ps

/-- Model of `CryptoService.hash`: with a (truthy, i.e. nonempty) caller-supplied
salt the digest is deterministic; otherwise a fresh random salt
(`saltRand`, the bytes drawn by `generateRandomWordArray`) is used.  The
result is `encodedSalt ++ ":" ++ encodedDigest`. -/
def hashFn (ext : HashExt) (data secret : Bytes) (salt : Option (List Char))
    (saltRand : Bytes) : List Char :=
  let pair : Bytes × List Char :=
    match salt with
    | some s =>
      if s.isEmpty then (saltRand, ext.encodeStr saltRand)
      else (ext.decodeStr s, s)
    | none => (saltRand, ext.encodeStr saltRand)
  pair.2 ++ ':' :: ext.encodeStr (ext.H (data ++ secret ++ pair.1))

/-- Model of `CryptoService.verifyHash`: split the record on `':'`, fail (false) if
either half is missing/empty, then recompute the digest with the stored
salt and compare with string equality. -/
def verifyHash (ext : HashExt) (data : Bytes) (hashedData : List Char)
    (secret : Bytes) : Bool :=
  match splitColon hashedData with
  | saltStr :: expected :: _ =>
    if saltStr.isEmpty || expected.isEmpty then false
    else
      decide (ext.encodeStr (ext.H (data ++ secret ++ ext.decodeStr saltStr))
        = expected)
  | _ => false

lemma splitColon_cons (c : Char) (rest : List Char) :
    splitColon (c :: rest) =
      if c = ':' then [] :: splitColon rest
      else
        match splitColon rest with
        | [] => [[c]]
        | p :: ps => (c :: p) :: ps := rfl

lemma splitColon_ne_nil (a : List Char) : splitColon a ≠ [] := by
  cases a with
  | nil => simp [splitColon]
  | cons c rest =>
    unfold splitColon
    split
    · simp
    · split <;> simp

lemma splitColon_of_not_mem (a : List Char) (h : ':' ∉ a) :
    splitColon a = [a] := by
  induction a with
  | nil => rfl
  | cons c rest ih =>
    have hc : ¬c = ':' := fun hc => h (by simp [hc])
    have hr : ':' ∉ rest := fun hr => h (by simp [hr])
    rw [splitColon_cons, if_neg hc, ih hr]

lemma splitColon_append (a b : List Char) (h : ':' ∉ a) :
    splitColon (a ++ ':' :: b) = a :: splitColon b := by
  induction a with
  | nil => simp [splitColon]
  | cons c rest ih =>
    have hc : ¬c = ':' := fun hc => h (by simp [hc])
    have hr : ':' ∉ rest := fun hr => h (by simp [hr])
    rw [List.cons_append, splitColon_cons, if_neg hc, ih hr]

/-- The salt actually used by `hashFn` together with its encoded string
form: a truthy supplied salt is decoded and used as-is, otherwise the
freshly drawn random salt is used and encoded. -/
def hashSaltPair (ext : HashExt) (salt : Option (List Char))
    (saltRand : Bytes) : Bytes × List Char :=
  match salt with
  | some s =>
    if s.isEmpty then (saltRand, ext.encodeStr saltRand)
    else (ext.decodeStr s, s)
  | none => (saltRand, ext.encodeStr saltRand)

lemma hashFn_eq (ext : HashExt) (data secret : Bytes)
    (salt : Option (List Char)) (saltRand : Bytes) :
    hashFn ext data secret salt saltRand
      = (hashSaltPair ext salt saltRand).2 ++ ':' ::
          ext.encodeStr (ext.H (data ++ secret ++
            (hashSaltPair ext salt saltRand).1)) := by
  unfold hashFn hashSaltPair
  rcases salt with _ | s
  · rfl
  · by_cases h : s.isEmpty <;> simp [h]

lemma ne_of_isEmpty_false {l : List Char} (h : l ≠ []) :
    l.isEmpty = false := by
  cases l with
  | nil => exact absurd rfl h
  | cons a t => rfl

/-- C6 (amended): `verifyHash(D, hash(D, S, salt), S)` is `true` for every
data, secret and salt whose encoded form is nonempty and free of `':'` —
which holds for every salt actually produced by the configured encodings
(hex / base64 / base64url never emit `':'`) — and flipping any single
character of the digest half of the record makes `verifyHash` return
`false`.  `hdec` states that re-decoding the stored salt string gives back
the salt bytes that were hashed (for a caller-supplied salt this is
definitional; for the random-salt mode it is the codec round-trip). -/
theorem C6_hash_verify (ext : HashExt) (data secret : Bytes)
    (salt : Option (List Char)) (saltRand : Bytes)
    (hsC : ':' ∉ (hashSaltPair ext salt saltRand).2)
    (hsNe : (hashSaltPair ext salt saltRand).2 ≠ [])
    (hdec : ext.decodeStr (hashSaltPair ext salt saltRand).2
      = (hashSaltPair ext salt saltRand).1)
    (hdC : ':' ∉ ext.encodeStr (ext.H (data ++ secret ++
      (hashSaltPair ext salt saltRand).1)))
    (hdNe : ext.encodeStr (ext.H (data ++ secret ++
      (hashSaltPair ext salt saltRand).1)) ≠ []) :
    verifyHash ext data (hashFn ext data secret salt saltRand) secret = true ∧
    (∀ (A B : List Char) (x c : Char),
      ext.encodeStr (ext.H (data ++ secret ++
        (hashSaltPair ext salt saltRand).1)) = A ++ x :: B →
      c ≠ x →
      verifyHash ext data ((hashSaltPair ext salt saltRand).2 ++ ':' ::
        (A ++ c :: B)) secret = false) := by
  set p := hashSaltPair ext salt saltRand with hp
  set digest := ext.encodeStr (ext.H (data ++ secret ++ p.1)) with hdig
  constructor
  · rw [hashFn_eq, ← hp, ← hdig]
    unfold verifyHash
    rw [splitColon_append _ _ hsC, splitColon_of_not_mem _ hdC]
    dsimp only
    rw [ne_of_isEmpty_false hsNe, ne_of_isEmpty_false hdNe]
    rw [hdec, ← hdig]
    simp
  · intro A B x c hAB hcx
    have hA : ':' ∉ A := fun hm => hdC (hAB ▸ List.mem_append_left _ hm)
    have hB : ':' ∉ B := fun hm =>
      hdC (hAB ▸ List.mem_append_right _ (List.mem_cons_of_mem _ hm))
    by_cases hc : c = ':'
    · subst hc
      unfold verifyHash
      rw [splitColon_append _ _ hsC, splitColon_append _ _ hA]
      dsimp only
      rw [ne_of_isEmpty_false hsNe]
      by_cases hA0 : A = []
      · subst hA0
        simp
      · rw [ne_of_isEmpty_false hA0]
        rw [hdec, ← hdig, hAB]
        have hne : A ++ x :: B ≠ A := by
          intro he
          have := congrArg List.length he
          simp at this
        simp [hne]
    · have hcol : ':' ∉ (A ++ c :: B) := by
        intro hm
        rcases List.mem_append.mp hm with h1 | h2
        · exact hA h1
        · rcases List.mem_cons.mp h2 with h3 | h4
          · exact hc h3.symm
          · exact hB h4
      unfold verifyHash
      rw [splitColon_append _ _ hsC, splitColon_of_not_mem _ hcol]
      dsimp only
      rw [ne_of_isEmpty_false hsNe, ne_of_isEmpty_false (by simp : (A ++ c :: B) ≠ [])]
      rw [hdec, ← hdig, hAB]
      have hne : A ++ x :: B ≠ A ++ c :: B := by
        intro he
        have h2 := List.append_cancel_left he
        exact hcx (by injection h2 with h3 _; exact h3.symm)
      simp [hne]

/-- Witness for C6 at a concrete codec/hasher instance, in deterministic
(caller-supplied salt) mode, with one digest character flipped for the
second half. -/
theorem C6_hash_verify_witness :
    (verifyHash ⟨fun _ => ['d', 'd'], fun s => [s.length], fun bs => bs⟩ [7]
      (hashFn ⟨fun _ => ['d', 'd'], fun s => [s.length], fun bs => bs⟩ [7] [8]
        (some ['s']) []) [8] = true) ∧
    (verifyHash ⟨fun _ => ['d', 'd'], fun s => [s.length], fun bs => bs⟩ [7]
      (['s'] ++ ':' :: (['d'] ++ 'q' :: ([] : List Char))) [8] = false) := by
  constructor
  · exact (C6_hash_verify ⟨fun _ => ['d', 'd'], fun s => [s.length], fun bs => bs⟩
      [7] [8] (some ['s']) [] (by decide) (by decide) (by decide) (by decide)
      (by decide)).1
  · exact (C6_hash_verify ⟨fun _ => ['d', 'd'], fun s => [s.length], fun bs => bs⟩
      [7] [8] (some ['s']) [] (by decide) (by decide) (by decide) (by decide)
      (by decide)).2 ['d'] [] 'd' 'q' (by decide) (by decide)

/-- C6 counterexample: the claim quantifies over every salt string, but a
salt containing `':'` breaks the record framing — `hash` returns
`"::dd"`, whose first `split(':')` component is empty, so `verifyHash`
returns `false`, not `true`. -/
theorem C6_salt_with_colon_fails :
    verifyHash ⟨fun _ => ['d', 'd'], fun s => [s.length], fun bs => bs⟩ [1]
      (hashFn ⟨fun _ => ['d', 'd'], fun s => [s.length], fun bs => bs⟩ [1] [2]
        (some [':']) []) [2] = false := by decide

/-! Cost model of the digest comparison (C9).

`verifyHash` compares the recomputed digest with the stored digest using
JavaScript string equality (`hashStr === expectedHashStr`), an ordinary
short-circuiting comparison, not a constant-time primitive.  `scanCost`
counts the character comparisons such a short-circuit scan performs. -/

/-- Character comparisons performed by a short-circuiting equality scan:
compare heads, stop at the first mismatch or at the end of either
string. -/
def scanCost : List Char → List Char → Nat
  | a :: as, b :: bs => 1 + (if a = b then scanCost as bs else 0)
  | _, _ => 0

/-- Length of the longest common prefix of two strings. -/
def lcp : List Char → List Char → Nat
  | a :: as, b :: bs => if a = b then 1 + lcp as bs else 0
  | _, _ => 0

/-- The pair of strings `verifyHash`'s final `===` compares (recomputed
digest, stored digest), when the comparison is reached at all. -/
def verifyHashCmp (ext : HashExt) (data : Bytes) (hashedData : List Char)
    (secret : Bytes) : Option (List Char × List Char) :=
  match splitColon hashedData with
  | saltStr :: expected :: _ =>
    if saltStr.isEmpty || expected.isEmpty then none
    else some (ext.encodeStr (ext.H (data ++ secret ++ ext.decodeStr saltStr)),
      expected)
  | _ => none

/-- Comparison count of `verifyHash`'s final string comparison under the
short-circuit scan model (0 when the comparison is never reached). -/
def verifyHashCmpCost (ext : HashExt) (data : Bytes) (hashedData : List Char)
    (secret : Bytes) : Nat :=
  match verifyHashCmp ext data hashedData secret with
  | some (a, b) => scanCost a b
  | none => 0

lemma scanCost_eq_lcp (a : List Char) : ∀ b : List Char,
    scanCost a b = min (lcp a b + 1) (min a.length b.length) := by
  induction a with
  | nil => intro b; cases b <;> simp [scanCost, lcp]
  | cons x as ih =>
    intro b
    cases b with
    | nil => simp [scanCost, lcp]
    | cons y bs =>
      by_cases hxy : x = y
      · simp only [scanCost, lcp, if_pos hxy, ih bs, List.length_cons]
        omega
      · simp only [scanCost, lcp, if_neg hxy, List.length_cons]
        omega

/-- C9 (amended): the digest comparison in `verifyHash` is an ordinary
short-circuiting string equality, so the number of character comparisons
it performs equals one more than the length of the matching prefix of the
two digests (capped by their lengths) — its running time depends on how
many leading characters match; it is not a constant-time comparison. -/
theorem C9_comparison_cost_tracks_matching_prefix (ext : HashExt)
    (data : Bytes) (hashedData : List Char) (secret : Bytes)
    (a b : List Char)
    (hcmp : verifyHashCmp ext data hashedData secret = some (a, b)) :
    verifyHashCmpCost ext data hashedData secret
      = min (lcp a b + 1) (min a.length b.length) := by
  unfold verifyHashCmpCost
  rw [hcmp]
  exact scanCost_eq_lcp a b

/-- Witness for C9 at a concrete instance (recomputed digest "aa", stored
digest "ab": the scan performs 2 comparisons = matching prefix 1 + 1). -/
theorem C9_comparison_cost_witness :
    verifyHashCmpCost ⟨fun _ => ['a', 'a'], fun _ => [], fun _ => []⟩ []
      ['s', ':', 'a', 'b'] []
      = min (lcp ['a', 'a'] ['a', 'b'] + 1)
          (min (['a', 'a'] : List Char).length (['a', 'b'] : List Char).length) :=
  C9_comparison_cost_tracks_matching_prefix
    ⟨fun _ => ['a', 'a'], fun _ => [], fun _ => []⟩ [] ['s', ':', 'a', 'b'] []
    ['a', 'a'] ['a', 'b'] (by decide)

/-- C9 counterexample: two verification calls whose stored digests have the
same length but different matching prefixes against the recomputed digest
"aa" ("ab" matches one leading character, "bb" none) perform a different
number of comparisons (2 versus 1) — the comparison cost depends on the
number of matching leading characters, so it is not constant time. -/
theorem C9_comparison_not_constant_time :
    verifyHashCmpCost ⟨fun _ => ['a', 'a'], fun _ => [], fun _ => []⟩ []
        ['s', ':', 'a', 'b'] []
      ≠ verifyHashCmpCost ⟨fun _ => ['a', 'a'], fun _ => [], fun _ => []⟩ []
        ['s', ':', 'b', 'b'] [] ∧
    (['a', 'b'] : List Char).length = (['b', 'b'] : List Char).length := by
  decide

/-! Key manager (`src/unnamed/part_008`) and store (`store.core.ts`).

Key records are read back from JSON, so their fields are JavaScript
runtime values (`JSVal`); `validateKey` performs the dynamic type checks
of the source.  `Date` handling (`new Date(...)`, `toISOString`) is the
JavaScript engine's and is a parameter (`DateExt`) over epoch
milliseconds. -/

/-- A JavaScript runtime value as it can appear in a persisted record:
string, (non-NaN integral) number, NaN, boolean, or `undefined`. -/
inductive JSVal
  | str (s : String)
  | num (n : Int)
  | nan
  | bool (b : Bool)
  | undef
deriving DecidableEq

/-- JavaScript `String(v)` coercion. -/
def jsToString : JSVal → String
  | .str s => s
  | .num n => toString n
  | .nan => "NaN"
  | .bool b => if b then "true" else "false"
  | .undef => "undefined"

/-- Model of `isType(data).string`. -/
def isTypeString : JSVal → Bool
  | .str _ => true
  | _ => false

/-- Model of `isType(data).number` (`typeof data === 'number' && !Number.isNaN`). -/
def isTypeNumber : JSVal → Bool
  | .num _ => true
  | _ => false

/-- Model of `isType(data).stringNumber` (`typeof` string or number; NaN is of
`typeof` number, so it qualifies). -/
def isTypeStringNumber : JSVal → Bool
  | .str _ => true
  | .num _ => true
  | .nan => true
  | _ => false

/-- Model of `isType(data).boolean`. -/
def isTypeBoolean : JSVal → Bool
  | .bool _ => true
  | _ => false

/-- Modelled from the spec: the `optionalString` check referenced by
`validateKey`'s type table for the optional `secret` field.  The revision
of `string.util.ts` defining it is missing from the snapshot (the copy
present predates the `secret` field and has no `optionalString` key, and
`part_008` could not have type-checked against it); per §3 of the spec
`secret` is an optional string, so the check accepts `undefined` and
strings. -/
def isTypeOptionalString : JSVal → Bool
  | .str _ => true
  | .undef => true
  | _ => false

/-- The string content of a `JSVal` known to be a string (used only after
the corresponding type check has passed). -/
def asStr : JSVal → String
  | .str s => s
  | _ => ""

/-- The boolean content of a `JSVal` (JS `!!v` on a checked boolean). -/
def asBool : JSVal → Bool
  | .bool b => b
  | _ => false

/-- The numeric content of a `JSVal` known to be a number. -/
def asNum : JSVal → Int
  | .num n => n
  | _ => 0

/-- The `TKeyGenerated` record as read from the store: every field is a runtime
value.  `from` and `to` are ISO timestamps, `secret` is optional. -/
structure RawKey where
  «from» : JSVal
  «to» : JSVal
  key : JSVal
  hashed : JSVal
  rotate : JSVal
  type : JSVal
  version : JSVal
  hashedBytes : JSVal
  secret : JSVal
deriving DecidableEq

/-- The JavaScript date engine: `parseDate s` is `new Date(s)` (`none` for
an Invalid Date), `toISO` is `Date.prototype.toISOString`, both over epoch
milliseconds. -/
structure DateExt where
  parseDate : String → Option Int
  toISO : Int → String

/-- Result record of `KeyManager.validateKey`; absent object fields are
`none` (JavaScript `undefined`, which is falsy). -/
structure ValidateRes where
  ok : Bool
  message : String
  errorOn : Option String := none
  isExpired : Option Bool := none
  isRenewable : Option Bool := none
deriving DecidableEq

/-- The `hashedBytes < 0` check performed after the date checks, and the
final `ok` result. -/
def validateTail (k : RawKey) : ValidateRes :=
  if asNum k.hashedBytes < 0 then
    { ok := false, message := "Invalid hashedBytes range",
      errorOn := some "hashedBytes" }
  else { ok := true, message := "" }

/-- Model of `KeyManager.validateKey` (part_008): dynamic type checks in the
declaration order of `typeChecks` (short-circuiting on the first failing
field), then `from` must parse as a date not in the future, then `to` must
be the `NON_EXPIRED` sentinel or a valid date — a past date classifies the
record as expired with renewability `!!rotate` — then `hashedBytes` must
be non-negative. -/
def validateKey (dx : DateExt) (now : Int) (k : RawKey) : ValidateRes :=
  if !isTypeString k.«from» then
    { ok := false, message := "from is not valid", errorOn := some "from" }
  else if !isTypeString k.«to» then
    { ok := false, message := "to is not valid", errorOn := some "to" }
  else if !isTypeString k.key then
    { ok := false, message := "key is not valid", errorOn := some "key" }
  else if !isTypeString k.hashed then
    { ok := false, message := "hashed is not valid", errorOn := some "hashed" }
  else if !isTypeBoolean k.rotate then
    { ok := false, message := "rotate is not valid", errorOn := some "rotate" }
  else if !isTypeString k.type then
    { ok := false, message := "type is not valid", errorOn := some "type" }
  else if !isTypeStringNumber k.version then
    { ok := false, message := "version is not valid", errorOn := some "version" }
  else if !isTypeNumber k.hashedBytes then
    { ok := false, message := "hashedBytes is not valid",
      errorOn := some "hashedBytes" }
  else if !isTypeOptionalString k.secret then
    { ok := false, message := "secret is not valid", errorOn := some "secret" }
  else
    match dx.parseDate (asStr k.«from») with
    | none =>
      { ok := false, message := "From date is not valid!",
        errorOn := some "from" }
    | some tf =>
      if now < tf then { ok := false, message := "Key is not started!" }
      else
        match dx.parseDate (asStr k.«to») with
        | none =>
          if asStr k.«to» ≠ "NON_EXPIRED" then
            { ok := false, message := "Expire date is not valid!",
              errorOn := some "to" }
          else validateTail k
        | some tt =>
          if tt < now then
            { ok := false, message := "Key is expired", errorOn := some "to",
              isExpired := some true, isRenewable := some (asBool k.rotate) }
          else validateTail k

/-- Contents of one store file: absent/empty (the file accessor's read
fallback is the empty string, which `toSavedData` maps to `{}`), malformed
(non-JSON or not a version-to-record object), or a well-formed
version-to-record mapping. -/
inductive FileData
  | missing
  | malformed
  | saved (entries : List (String × RawKey))

/-- The file system visible to the store: path to file contents. -/
abbrev FS := String → FileData

/-- Model of `Store.toSavedData` composed with the file read: empty/absent data is
`{}`, malformed data throws
`Invalid JSON data (must be Record<version, TKeyGenerated>)`. -/
def toSavedData : FileData → Except String (List (String × RawKey))
  | .missing => .ok []
  | .malformed => .error "Invalid JSON data (must be Record<version, TKeyGenerated>)"
  | .saved m => .ok m

/-- Property lookup `savedData[version]` on the JSON object. -/
def lookupVersion : List (String × RawKey) → String → Option RawKey
  | [], _ => none
  | (k, v) :: rest, q => if k = q then some v else lookupVersion rest q

/-- Model of the spread `{ ...saveData, [data.version]: data }`: replace the value in place if
the key exists, else append. -/
def setVersion : List (String × RawKey) → String → RawKey →
    List (String × RawKey)
  | [], q, v => [(q, v)]
  | (k, w) :: rest, q, v =>
    if k = q then (k, v) :: rest else (k, w) :: setVersion rest q v

/-- Write the file at `path`. -/
def updateFS (fs : FS) (path : String) (d : FileData) : FS :=
  fun p => if p = path then d else fs p

/-- Model of `Store.saveKeyFile`: read the current file (throwing on malformed
data), start from it when merging and from `{}` otherwise, insert the
record under the string form of its version, and write the file back. -/
def saveKeyFile (fs : FS) (path : String) (data : RawKey) (merge : Bool) :
    Except String (String × FS) := do
  let savedData ← toSavedData (fs path)
  let base := if merge then savedData else []
  pure (path, updateFS fs path (.saved
    (setVersion base (jsToString data.version) data)))

/-- Model of `KeyManager.getKeyByStore` with the default store: load the file data
and look the version up. -/
def getKeyByStore (fs : FS) (path version : String) :
    Except String (Option RawKey) := do
  let savedData ← toSavedData (fs path)
  pure (lookupVersion savedData version)

/-- The `TKeyDurationUnit` enumeration. -/
inductive DurUnit
  | seconds | minutes | hours | days
deriving DecidableEq

/-- Model of `addDuration` (string.util.ts), over epoch milliseconds.  `setDate`
advances the calendar day in local time; the model uses fixed-length days
(the UTC reading); the claims settled here depend only on the result
moving forward in time for positive durations, which holds for both. -/
def addDuration (t : Int) (d : Int) (u : DurUnit) : Int :=
  match u with
  | .seconds => t + d * 1000
  | .minutes => t + d * 60000
  | .hours => t + d * 3600000
  | .days => t + d * 86400000

/-- The `TGenerateKeyOptions` record (the argument of `newKey`). -/
structure GenOpts where
  type : String
  keyLength : Option Int := none
  duration : Option Int := none
  unit : Option DurUnit := none
  rotate : Option Bool := none
  merge : Option Bool := none

/-- The rotation spec `TGetKeyOptions.onRotate`: `duration`, `unit` and `rotate` are
required, `keyLength` and `merge` optional. -/
structure RotateOpts where
  duration : Int
  unit : DurUnit
  rotate : Bool
  keyLength : Option Int := none
  merge : Option Bool := none

/-- The `TGetKeyOptions` record. -/
structure GetKeyOpts where
  path : String
  version : JSVal
  disableHooks : Bool := false
  onRotate : Option RotateOpts := none

/-- The key-manager hooks fired by `getKey` (`runKeyHook` names). -/
inductive Hook
  | keyNotFound (path : String) (version : JSVal)
  | keyMissingRotateOption
  | keyRenewed
  | keyExpired (path : String)
  | keyInvalid (message : String)
deriving DecidableEq

/-- The `TGetKey` result record of `getKey`. -/
structure GetKeyRes where
  expired : Option RawKey
  ready : Option RawKey
deriving DecidableEq

/-- The environment `newKey`/`getKey` runs in: the date engine and clock,
the configured crypto key length (`kOptions.crypto.keyLength`), the random
draws of `generateKey`/`generateSalt`, `cryptoService.hash` (whose
internal salt randomness is folded into the function), the resolved
version-generator result (a string or a number), and the path/filename
templating (`getFilename`, an external collaborator) as a function of the
bound version and type. -/
structure KMEnv where
  dx : DateExt
  now : Int
  cryptoKeyLength : Int
  genKeyStr : String
  genSaltStr : String
  cryptoHash : String → String → String
  genVersion : JSVal
  filename : JSVal → String → String

/-- The `keyGenerated` record built by `KeyManager.newKey`: generated key
and secret salt, their hash, `to` computed from `duration`/`unit`
(JavaScript truthiness: a zero or absent duration or absent unit yields
the `NON_EXPIRED` sentinel), `hashedBytes` the resolved key length, the
version-generator result, and `!!rotate`. -/
def generatedRecord (env : KMEnv) (o : GenOpts) : RawKey :=
  { «from» := .str (env.dx.toISO env.now)
    «to» := .str (match o.duration, o.unit with
      | some d, some u =>
        if d ≠ 0 then env.dx.toISO (addDuration env.now d u)
        else "NON_EXPIRED"
      | _, _ => "NON_EXPIRED")
    key := .str env.genKeyStr
    secret := .str env.genSaltStr
    hashed := .str (env.cryptoHash env.genKeyStr env.genSaltStr)
    hashedBytes := .num (o.keyLength.getD env.cryptoKeyLength)
    type := .str o.type
    version := env.genVersion
    rotate := .bool (o.rotate.getD false) }

/-- Model of `KeyManager.newKey` (part_008): build the generated record, resolve
the file path with the templating collaborator, and persist via
`saveKeyFile` (the default store); returns the record and its path. -/
def newKey (env : KMEnv) (fs : FS) (o : GenOpts) :
    Except String (RawKey × String × FS) := do
  let keyGenerated := generatedRecord env o
  let path := env.filename env.genVersion o.type
  let (p, fs2) ← saveKeyFile fs path keyGenerated (o.merge.getD false)
  pure (keyGenerated, p, fs2)

/-- Model of `KeyManager.getKey` (part_008): load by path and `String(version)`
(`null` → not-found result with a hook), classify with `validateKey`, and
dispatch: expired+renewable rotates through `newKey` when rotation options
are present (else returns the expired record), expired+terminal returns
the expired record, otherwise invalid yields an empty result, and a valid
record is returned as `ready`.  The structural error thrown by
`toSavedData` on malformed file data propagates (there is no catch in the
source). -/
def getKey (env : KMEnv) (fs : FS) (o : GetKeyOpts) :
    Except String (GetKeyRes × FS × List Hook) := do
  let key? ← getKeyByStore fs o.path (jsToString o.version)
  match key? with
  | none =>
    pure (⟨none, none⟩, fs,
      if o.disableHooks then [] else [.keyNotFound o.path o.version])
  | some key =>
    let v := validateKey env.dx env.now key
    if !v.ok && v.isExpired.getD false && v.isRenewable.getD false then
      match o.onRotate with
      | none =>
        pure (⟨some key, none⟩, fs,
          if o.disableHooks then [] else [.keyMissingRotateOption])
      | some ro => do
        let (newRec, _renewPath, fs2) ← newKey env fs {
          type := asStr key.type
          duration := some ro.duration
          unit := some ro.unit
          rotate := some ro.rotate
          keyLength := ro.keyLength
          merge := ro.merge }
        pure (⟨some key, some newRec⟩, fs2,
          if o.disableHooks then [] else [.keyRenewed])
    else if !v.ok && v.isExpired.getD false && !(v.isRenewable.getD false) then
      pure (⟨some key, none⟩, fs,
        if o.disableHooks then [] else [.keyExpired o.path])
    else if !v.ok then
      pure (⟨none, none⟩, fs,
        if o.disableHooks then [] else [.keyInvalid v.message])
    else
      pure (⟨none, some key⟩, fs, [])

/-- All nine dynamic type checks of `validateKey`'s `typeChecks` table. -/
def structOk (k : RawKey) : Bool :=
  isTypeString k.«from» && isTypeString k.«to» && isTypeString k.key &&
  isTypeString k.hashed && isTypeBoolean k.rotate && isTypeString k.type &&
  isTypeStringNumber k.version && isTypeNumber k.hashedBytes &&
  isTypeOptionalString k.secret

lemma str_of_isTypeString {v : JSVal} (h : isTypeString v = true) :
    v = .str (asStr v) := by
  cases v <;> simp [isTypeString, asStr] at h ⊢

lemma validateKey_expired_eq (dx : DateExt) (now : Int) (k : RawKey)
    (hstruct : structOk k = true)
    (tf : Int) (hfrom : dx.parseDate (asStr k.«from») = some tf)
    (hnf : ¬now < tf)
    (tt : Int) (hto : dx.parseDate (asStr k.«to») = some tt)
    (hpast : tt < now) :
    validateKey dx now k
      = { ok := false, message := "Key is expired", errorOn := some "to",
          isExpired := some true, isRenewable := some (asBool k.rotate) } := by
  simp only [structOk, Bool.and_eq_true] at hstruct
  obtain ⟨⟨⟨⟨⟨⟨⟨⟨h1, h2⟩, h3⟩, h4⟩, h5⟩, h6⟩, h7⟩, h8⟩, h9⟩ := hstruct
  unfold validateKey
  simp only [h1, h2, h3, h4, h5, h6, h7, h8, h9, Bool.not_true,
    Bool.false_eq_true, if_false]
  rw [hfrom]
  dsimp only
  rw [if_neg hnf, hto]
  dsimp only
  rw [if_pos hpast]

lemma validateKey_ok_eq (dx : DateExt) (now : Int) (k : RawKey)
    (hstruct : structOk k = true)
    (tf : Int) (hfrom : dx.parseDate (asStr k.«from») = some tf)
    (hnf : ¬now < tf)
    (hto : (asStr k.«to» = "NON_EXPIRED" ∧ dx.parseDate (asStr k.«to») = none)
      ∨ ∃ tt, dx.parseDate (asStr k.«to») = some tt ∧ ¬tt < now)
    (hhb : ¬asNum k.hashedBytes < 0) :
    validateKey dx now k = { ok := true, message := "" } := by
  simp only [structOk, Bool.and_eq_true] at hstruct
  obtain ⟨⟨⟨⟨⟨⟨⟨⟨h1, h2⟩, h3⟩, h4⟩, h5⟩, h6⟩, h7⟩, h8⟩, h9⟩ := hstruct
  unfold validateKey
  simp only [h1, h2, h3, h4, h5, h6, h7, h8, h9, Bool.not_true,
    Bool.false_eq_true, if_false]
  rw [hfrom]
  dsimp only
  rw [if_neg hnf]
  rcases hto with ⟨hsent, hnone⟩ | ⟨tt, hsome, hfut⟩
  · rw [hnone]
    dsimp only
    rw [if_neg (by simp [hsent])]
    unfold validateTail
    rw [if_neg hhb]
  · rw [hsome]
    dsimp only
    rw [if_neg hfut]
    unfold validateTail
    rw [if_neg hhb]

/-- C4: a record passing the structural checks, whose `from` is a valid
non-future date and whose `to` is a valid date in the past, is classified
as expired (`ok = false`, `isExpired = true`) with renewability exactly
the record's `rotate` flag: `isRenewable = !!rotate`, so `rotate = true`
yields expired-renewable and `rotate = false` expired-terminal. -/
theorem C4_expired_classified_by_rotate_flag (dx : DateExt) (now : Int)
    (k : RawKey) (hstruct : structOk k = true)
    (tf : Int) (hfrom : dx.parseDate (asStr k.«from») = some tf)
    (hnf : ¬now < tf)
    (tt : Int) (hto : dx.parseDate (asStr k.«to») = some tt)
    (hpast : tt < now) :
    validateKey dx now k
      = { ok := false, message := "Key is expired", errorOn := some "to",
          isExpired := some true, isRenewable := some (asBool k.rotate) } :=
  validateKey_expired_eq dx now k hstruct tf hfrom hnf tt hto hpast

/-- Witness for C4: a concrete record one second past its `to` date, with
a table-based date engine (epoch ms: "T0" is 0, "TP" is -1000). -/
theorem C4_expired_classified_witness :
    validateKey
      ⟨fun s => if s = "T0" then some 0 else if s = "TP" then some (-1000)
        else none, fun _ => "T0"⟩ 0
      ⟨.str "T0", .str "TP", .str "kk", .str "hh", .bool true, .str "api",
        .str "v1", .num 32, .undef⟩
      = { ok := false, message := "Key is expired", errorOn := some "to",
          isExpired := some true, isRenewable := some true } :=
  C4_expired_classified_by_rotate_flag
    ⟨fun s => if s = "T0" then some 0 else if s = "TP" then some (-1000)
      else none, fun _ => "T0"⟩ 0
    ⟨.str "T0", .str "TP", .str "kk", .str "hh", .bool true, .str "api",
      .str "v1", .num 32, .undef⟩
    (by decide) 0 (by decide) (by decide) (-1000) (by decide) (by decide)

/-- C8: when the persisted data at the path is malformed, the error thrown
by `Store.toSavedData` propagates out of `getKey` uncaught as the typed
`Invalid JSON data` failure — no notification hook fires and no null/empty
result is returned, contrary to the claim (and to the hook documentation
in the source, which says an invalid file should behave as `{}` and fire
the key-not-found hook). -/
theorem C8_malformed_store_data_throws :
    getKey
      ⟨⟨fun _ => none, fun _ => ""⟩, 0, 32, "gk", "gs", fun _ _ => "gh",
        .str "v2", fun _ _ => "p2"⟩
      (fun _ => FileData.malformed)
      { path := "keys/api_v_1.json", version := .str "1" }
      = .error "Invalid JSON data (must be Record<version, TKeyGenerated>)" :=
  rfl

lemma lookup_setVersion (m : List (String × RawKey)) (q : String)
    (r : RawKey) : lookupVersion (setVersion m q r) q = some r := by
  induction m with
  | nil => simp [setVersion, lookupVersion]
  | cons kv rest ih =>
    obtain ⟨k, w⟩ := kv
    by_cases h : k = q
    · simp [setVersion, h, lookupVersion]
    · simp [setVersion, h, lookupVersion, ih]

/-- C10: saving a record (with a string or numeric version) through the
default store's `saveKeyFile` — with or without merge — stores it under
the decimal-string form of its version, and `getKeyByStore` (which is
what `getKey` calls after coercing its version argument with `String`)
finds it under any version value whose string coercion matches. -/
theorem C10_saved_record_found_by_string_version (fs : FS) (path : String)
    (r : RawKey) (merge : Bool) (v : JSVal)
    (hread : ∃ m, toSavedData (fs path) = .ok m)
    (hv : jsToString v = jsToString r.version) :
    ∃ fs2, saveKeyFile fs path r merge = .ok (path, fs2) ∧
      getKeyByStore fs2 path (jsToString v) = .ok (some r) := by
  obtain ⟨m, hm⟩ := hread
  refine ⟨updateFS fs path (.saved (setVersion (if merge then m else [])
    (jsToString r.version) r)), ?_, ?_⟩
  · unfold saveKeyFile
    rw [hm]
    rfl
  · unfold getKeyByStore
    have hup : updateFS fs path (.saved (setVersion (if merge then m else [])
        (jsToString r.version) r)) path
        = .saved (setVersion (if merge then m else [])
            (jsToString r.version) r) := by
      unfold updateFS
      simp
    rw [hup]
    show Except.ok (lookupVersion (setVersion (if merge then m else [])
      (jsToString r.version) r) (jsToString v)) = Except.ok (some r)
    rw [hv, lookup_setVersion]

/-- Witness for C10: a numeric version 15 saved into an empty store file
and loaded back with the string version "15". -/
theorem C10_saved_record_found_witness :
    ∃ fs2, saveKeyFile (fun _ => FileData.missing) "keys/api_v_15.json"
        ⟨.str "T0", .str "NON_EXPIRED", .str "kk", .str "hh", .bool true,
          .str "api", .num 15, .num 32, .undef⟩ true
        = .ok ("keys/api_v_15.json", fs2) ∧
      getKeyByStore fs2 "keys/api_v_15.json" "15"
        = .ok (some ⟨.str "T0", .str "NON_EXPIRED", .str "kk", .str "hh",
            .bool true, .str "api", .num 15, .num 32, .undef⟩) :=
  C10_saved_record_found_by_string_version (fun _ => FileData.missing)
    "keys/api_v_15.json"
    ⟨.str "T0", .str "NON_EXPIRED", .str "kk", .str "hh", .bool true,
      .str "api", .num 15, .num 32, .undef⟩ true (.str "15")
    ⟨[], rfl⟩ (by decide)

lemma bind_ok {a b : Type} (x : a) (f : a → Except String b) :
    ((Except.ok x : Except String a) >>= f) = f x := rfl

lemma getKeyByStore_saved_eq (fs : FS) (path version : String)
    (entries : List (String × RawKey)) (hfile : fs path = .saved entries) :
    getKeyByStore fs path version = .ok (lookupVersion entries version) := by
  unfold getKeyByStore
  rw [hfile]
  rfl

lemma newKey_ok_eq (env : KMEnv) (fs : FS) (o : GenOpts)
    (m : List (String × RawKey))
    (hread : toSavedData (fs (env.filename env.genVersion o.type)) = .ok m) :
    newKey env fs o = .ok (generatedRecord env o,
      env.filename env.genVersion o.type,
      updateFS fs (env.filename env.genVersion o.type)
        (.saved (setVersion (if o.merge.getD false then m else [])
          (jsToString env.genVersion) (generatedRecord env o)))) := by
  unfold newKey saveKeyFile
  dsimp only
  rw [hread, bind_ok]
  rfl

lemma getKey_valid_eq (env : KMEnv) (fs : FS) (o : GetKeyOpts) (k : RawKey)
    (entries : List (String × RawKey))
    (hfile : fs o.path = .saved entries)
    (hlook : lookupVersion entries (jsToString o.version) = some k)
    (hvalid : validateKey env.dx env.now k = { ok := true, message := "" }) :
    getKey env fs o = .ok (⟨none, some k⟩, fs, []) := by
  unfold getKey
  rw [getKeyByStore_saved_eq fs o.path _ entries hfile, hlook, bind_ok]
  dsimp only
  rw [hvalid]
  simp
  rfl

/-- C1: a well-formed record (structural checks pass, `from` a valid
non-future date, `to` the never-expires sentinel or a valid non-past
date, non-negative `hashedBytes`) stored under the requested version is
classified Valid, and `getKey` returns it as `ready` with `expired` null
and no hook fired; and the scenario: `newKey` with type "api", duration
30 days and rotate true, followed immediately by `getKey` at the
generated path and version, returns the same generated record as `ready`
with `expired` null.  (`validateKey`'s type table is settled against the
spec-modelled `isTypeOptionalString`, see its doc comment.) -/
theorem C1_valid_record_returned_ready (env : KMEnv) (fs : FS)
    (o : GetKeyOpts) (k : RawKey) (entries : List (String × RawKey))
    (fs0 : FS)
    (hfile : fs o.path = .saved entries)
    (hlook : lookupVersion entries (jsToString o.version) = some k)
    (hstruct : structOk k = true)
    (tf : Int) (hfrom : env.dx.parseDate (asStr k.«from») = some tf)
    (hnf : ¬env.now < tf)
    (hto : (asStr k.«to» = "NON_EXPIRED" ∧ env.dx.parseDate (asStr k.«to») = none)
      ∨ ∃ tt, env.dx.parseDate (asStr k.«to») = some tt ∧ ¬tt < env.now)
    (hhb : ¬asNum k.hashedBytes < 0)
    (hisoNow : env.dx.parseDate (env.dx.toISO env.now) = some env.now)
    (hiso30 : env.dx.parseDate (env.dx.toISO (addDuration env.now 30 .days))
      = some (addDuration env.now 30 .days))
    (hver : isTypeStringNumber env.genVersion = true)
    (hkl : ¬env.cryptoKeyLength < 0)
    (hread0 : ∃ m, toSavedData (fs0 (env.filename env.genVersion "api")) = .ok m) :
    getKey env fs o = .ok (⟨none, some k⟩, fs, []) ∧
    (∃ kg fs2,
      newKey env fs0
          { type := "api", duration := some 30, unit := some .days,
            rotate := some true }
        = .ok (kg, env.filename env.genVersion "api", fs2) ∧
      getKey env fs2
          { path := env.filename env.genVersion "api",
            version := env.genVersion }
        = .ok (⟨none, some kg⟩, fs2, [])) := by
  constructor
  · exact getKey_valid_eq env fs o k entries hfile hlook
      (validateKey_ok_eq env.dx env.now k hstruct tf hfrom hnf hto hhb)
  · obtain ⟨m, hm⟩ := hread0
    refine ⟨generatedRecord env
        { type := "api", duration := some 30, unit := some .days,
          rotate := some true }, _,
      newKey_ok_eq env fs0 _ m hm, ?_⟩
    have hstruct2 : structOk (generatedRecord env
        { type := "api", duration := some 30, unit := some .days,
          rotate := some true })
        = true := by
      simp [structOk, generatedRecord, isTypeString, isTypeBoolean,
        isTypeNumber, isTypeOptionalString, hver]
    refine getKey_valid_eq env _ _ _
      (setVersion [] (jsToString env.genVersion)
        (generatedRecord env
          { type := "api", duration := some 30, unit := some .days,
            rotate := some true })) (by simp [updateFS])
      (lookup_setVersion _ _ _)
      (validateKey_ok_eq env.dx env.now _ hstruct2 env.now hisoNow
        (by omega)
        (Or.inr ⟨addDuration env.now 30 .days, hiso30,
          by simp only [addDuration]; omega⟩)
        hkl)

/-- Witness for C1: a concrete valid record under a table-based date
engine ("T0" parses to 0, "T1" to 30 days in ms), and the concrete
newKey-then-getKey scenario on an empty store. -/
theorem C1_valid_record_returned_ready_witness :
    getKey
      ⟨⟨fun s => if s = "T0" then some 0
          else if s = "T1" then some 2592000000 else none,
        fun t => if t = 0 then "T0" else "T1"⟩, 0, 32, "gk", "gs",
        fun _ _ => "gh", .str "v2", fun _ _ => "p2"⟩
      (fun _ => FileData.saved [("v1",
        ⟨.str "T0", .str "NON_EXPIRED", .str "kk", .str "hh", .bool true,
          .str "api", .str "v1", .num 32, .undef⟩)])
      { path := "p1", version := .str "v1" }
      = .ok (⟨none, some ⟨.str "T0", .str "NON_EXPIRED", .str "kk",
          .str "hh", .bool true, .str "api", .str "v1", .num 32, .undef⟩⟩,
        (fun _ => FileData.saved [("v1",
          ⟨.str "T0", .str "NON_EXPIRED", .str "kk", .str "hh", .bool true,
            .str "api", .str "v1", .num 32, .undef⟩)]), []) ∧
    (∃ kg fs2,
      newKey
        ⟨⟨fun s => if s = "T0" then some 0
            else if s = "T1" then some 2592000000 else none,
          fun t => if t = 0 then "T0" else "T1"⟩, 0, 32, "gk", "gs",
          fun _ _ => "gh", .str "v2", fun _ _ => "p2"⟩
        (fun _ => FileData.missing)
        { type := "api", duration := some 30, unit := some .days,
          rotate := some true } = .ok (kg, "p2", fs2) ∧
      getKey
        ⟨⟨fun s => if s = "T0" then some 0
            else if s = "T1" then some 2592000000 else none,
          fun t => if t = 0 then "T0" else "T1"⟩, 0, 32, "gk", "gs",
          fun _ _ => "gh", .str "v2", fun _ _ => "p2"⟩
        fs2 { path := "p2", version := .str "v2" }
        = .ok (⟨none, some kg⟩, fs2, [])) :=
  C1_valid_record_returned_ready
    ⟨⟨fun s => if s = "T0" then some 0
        else if s = "T1" then some 2592000000 else none,
      fun t => if t = 0 then "T0" else "T1"⟩, 0, 32, "gk", "gs",
      fun _ _ => "gh", .str "v2", fun _ _ => "p2"⟩
    (fun _ => FileData.saved [("v1",
      ⟨.str "T0", .str "NON_EXPIRED", .str "kk", .str "hh", .bool true,
        .str "api", .str "v1", .num 32, .undef⟩)])
    { path := "p1", version := .str "v1" }
    ⟨.str "T0", .str "NON_EXPIRED", .str "kk", .str "hh", .bool true,
      .str "api", .str "v1", .num 32, .undef⟩
    [("v1", ⟨.str "T0", .str "NON_EXPIRED", .str "kk", .str "hh",
      .bool true, .str "api", .str "v1", .num 32, .undef⟩)]
    (fun _ => FileData.missing)
    rfl (by decide) (by decide) 0 (by decide) (by decide)
    (Or.inl ⟨rfl, by decide⟩) (by decide) (by decide) (by decide)
    (by decide) (by decide) ⟨[], rfl⟩

/-- The `newKey` options `getKey` builds for rotation:
`{ type: key.type, ...options.onRotate }`. -/
def rotateGenOpts (k : RawKey) (ro : RotateOpts) : GenOpts :=
  { type := asStr k.type, duration := some ro.duration, unit := some ro.unit,
    rotate := some ro.rotate, keyLength := ro.keyLength, merge := ro.merge }

lemma getKeyByStore_after_save (fs : FS) (path q : String) (kg : RawKey)
    (base : List (String × RawKey)) :
    getKeyByStore (updateFS fs path (.saved (setVersion base q kg))) path q
      = .ok (some kg) := by
  have h := getKeyByStore_saved_eq
    (updateFS fs path (.saved (setVersion base q kg))) path q
    (setVersion base q kg) (by simp [updateFS])
  rw [h, lookup_setVersion]

/-- C3: `getKey` on a stored record that is well-formed except that its
`to` date is in the past, with `rotate = true` and a rotation spec
supplied, returns the old record as `expired` and a freshly generated
record as `ready`; the new record keeps the old record's `type`, carries
the version generator's fresh version (different from the old one — the
generator is an external identifier source, assumed fresh in `hvfresh`),
and is persisted: loading its own path and version from the resulting
store finds it. -/
theorem C3_expired_renewable_rotates (env : KMEnv) (fs : FS)
    (o : GetKeyOpts) (k : RawKey) (entries : List (String × RawKey))
    (ro : RotateOpts) (m2 : List (String × RawKey))
    (hfile : fs o.path = .saved entries)
    (hlook : lookupVersion entries (jsToString o.version) = some k)
    (hstruct : structOk k = true)
    (tf : Int) (hfrom : env.dx.parseDate (asStr k.«from») = some tf)
    (hnf : ¬env.now < tf)
    (tt : Int) (hto : env.dx.parseDate (asStr k.«to») = some tt)
    (hpast : tt < env.now)
    (hrot : k.rotate = .bool true)
    (hro : o.onRotate = some ro)
    (hread2 : toSavedData (fs (env.filename env.genVersion (asStr k.type)))
      = .ok m2)
    (hvfresh : jsToString env.genVersion ≠ jsToString k.version) :
    ∃ fs2,
      getKey env fs o
        = .ok (⟨some k, some (generatedRecord env (rotateGenOpts k ro))⟩,
          fs2, if o.disableHooks then [] else [.keyRenewed]) ∧
      (generatedRecord env (rotateGenOpts k ro)).type = k.type ∧
      jsToString (generatedRecord env (rotateGenOpts k ro)).version
        ≠ jsToString k.version ∧
      getKeyByStore fs2 (env.filename env.genVersion (asStr k.type))
        (jsToString (generatedRecord env (rotateGenOpts k ro)).version)
        = .ok (some (generatedRecord env (rotateGenOpts k ro))) := by
  have hval := validateKey_expired_eq env.dx env.now k hstruct tf hfrom hnf
    tt hto hpast
  have hrotT : asBool k.rotate = true := by rw [hrot]; rfl
  rw [hrotT] at hval
  have h6 : isTypeString k.type = true := by
    have hs2 := hstruct
    simp only [structOk, Bool.and_eq_true] at hs2
    exact hs2.1.1.1.2
  have hnew := newKey_ok_eq env fs (rotateGenOpts k ro) m2 hread2
  refine ⟨_, ?_, (str_of_isTypeString h6).symm, hvfresh,
    getKeyByStore_after_save fs (env.filename env.genVersion (asStr k.type))
      (jsToString env.genVersion) (generatedRecord env (rotateGenOpts k ro))
      (if (rotateGenOpts k ro).merge.getD false then m2 else [])⟩
  unfold getKey
  rw [getKeyByStore_saved_eq fs o.path _ entries hfile, hlook, bind_ok]
  dsimp only
  rw [hval, hro]
  dsimp only
  unfold rotateGenOpts at hnew
  rw [hnew, bind_ok]
  rfl

/-- Witness for C3: a concrete expired-renewable record ("TP" parses 1000
ms in the past) rotated with a 30-days rotation spec; the generator's
fresh version is "v2" against the stored "v1". -/
theorem C3_expired_renewable_rotates_witness :
    ∃ fs2,
      getKey
        ⟨⟨fun s => if s = "T0" then some 0
            else if s = "TP" then some (-1000)
            else if s = "T1" then some 2592000000 else none,
          fun t => if t = 0 then "T0" else "T1"⟩, 0, 32, "gk", "gs",
          fun _ _ => "gh", .str "v2", fun _ _ => "p2"⟩
        (fun _ => FileData.saved [("v1",
          ⟨.str "T0", .str "TP", .str "kk", .str "hh", .bool true,
            .str "api", .str "v1", .num 32, .undef⟩)])
        { path := "p1", version := .str "v1",
          onRotate := some ⟨30, .days, true, none, none⟩ }
        = .ok (⟨some ⟨.str "T0", .str "TP", .str "kk", .str "hh",
            .bool true, .str "api", .str "v1", .num 32, .undef⟩,
          some (generatedRecord
            ⟨⟨fun s => if s = "T0" then some 0
                else if s = "TP" then some (-1000)
                else if s = "T1" then some 2592000000 else none,
              fun t => if t = 0 then "T0" else "T1"⟩, 0, 32, "gk", "gs",
              fun _ _ => "gh", .str "v2", fun _ _ => "p2"⟩
            (rotateGenOpts
              ⟨.str "T0", .str "TP", .str "kk", .str "hh", .bool true,
                .str "api", .str "v1", .num 32, .undef⟩
              ⟨30, .days, true, none, none⟩))⟩, fs2, [.keyRenewed]) ∧
      (generatedRecord
          ⟨⟨fun s => if s = "T0" then some 0
              else if s = "TP" then some (-1000)
              else if s = "T1" then some 2592000000 else none,
            fun t => if t = 0 then "T0" else "T1"⟩, 0, 32, "gk", "gs",
            fun _ _ => "gh", .str "v2", fun _ _ => "p2"⟩
          (rotateGenOpts
            ⟨.str "T0", .str "TP", .str "kk", .str "hh", .bool true,
              .str "api", .str "v1", .num 32, .undef⟩
            ⟨30, .days, true, none, none⟩)).type = .str "api" ∧
      jsToString (generatedRecord
          ⟨⟨fun s => if s = "T0" then some 0
              else if s = "TP" then some (-1000)
              else if s = "T1" then some 2592000000 else none,
            fun t => if t = 0 then "T0" else "T1"⟩, 0, 32, "gk", "gs",
            fun _ _ => "gh", .str "v2", fun _ _ => "p2"⟩
          (rotateGenOpts
            ⟨.str "T0", .str "TP", .str "kk", .str "hh", .bool true,
              .str "api", .str "v1", .num 32, .undef⟩
            ⟨30, .days, true, none, none⟩)).version ≠ "v1" ∧
      getKeyByStore fs2 "p2"
        (jsToString (generatedRecord
          ⟨⟨fun s => if s = "T0" then some 0
              else if s = "TP" then some (-1000)
              else if s = "T1" then some 2592000000 else none,
            fun t => if t = 0 then "T0" else "T1"⟩, 0, 32, "gk", "gs",
            fun _ _ => "gh", .str "v2", fun _ _ => "p2"⟩
          (rotateGenOpts
            ⟨.str "T0", .str "TP", .str "kk", .str "hh", .bool true,
              .str "api", .str "v1", .num 32, .undef⟩
            ⟨30, .days, true, none, none⟩)).version)
        = .ok (some (generatedRecord
          ⟨⟨fun s => if s = "T0" then some 0
              else if s = "TP" then some (-1000)
              else if s = "T1" then some 2592000000 else none,
            fun t => if t = 0 then "T0" else "T1"⟩, 0, 32, "gk", "gs",
            fun _ _ => "gh", .str "v2", fun _ _ => "p2"⟩
          (rotateGenOpts
            ⟨.str "T0", .str "TP", .str "kk", .str "hh", .bool true,
              .str "api", .str "v1", .num 32, .undef⟩
            ⟨30, .days, true, none, none⟩))) :=
  C3_expired_renewable_rotates
    ⟨⟨fun s => if s = "T0" then some 0
        else if s = "TP" then some (-1000)
        else if s = "T1" then some 2592000000 else none,
      fun t => if t = 0 then "T0" else "T1"⟩, 0, 32, "gk", "gs",
      fun _ _ => "gh", .str "v2", fun _ _ => "p2"⟩
    (fun _ => FileData.saved [("v1",
      ⟨.str "T0", .str "TP", .str "kk", .str "hh", .bool true,
        .str "api", .str "v1", .num 32, .undef⟩)])
    { path := "p1", version := .str "v1",
      onRotate := some ⟨30, .days, true, none, none⟩ }
    ⟨.str "T0", .str "TP", .str "kk", .str "hh", .bool true, .str "api",
      .str "v1", .num 32, .undef⟩
    [("v1", ⟨.str "T0", .str "TP", .str "kk", .str "hh", .bool true,
      .str "api", .str "v1", .num 32, .undef⟩)]
    ⟨30, .days, true, none, none⟩
    [("v1", ⟨.str "T0", .str "TP", .str "kk", .str "hh", .bool true,
      .str "api", .str "v1", .num 32, .undef⟩)]
    rfl (by decide) (by decide) 0 (by decide) (by decide) (-1000)
    (by decide) (by decide) (by decide) rfl rfl (by decide)

end KeyRot
